import Mathlib

/-!
Verification development for the TimeTree Home Assistant integration.

The definitions below are a shallow embedding of the Python sources:
`custom_components/timetree/coordinator.py`, `custom_components/timetree/calendar.py`,
`custom_components/timetree/timetree_api/_auth.py`,
`timetree-api/src/timetree_api/_client.py` and
`timetree-api/src/timetree_api/_serialization.py`.
Machine timestamps are modelled as `Int` (epoch milliseconds), Python `dict`s as
association lists with Python-dict update semantics (overwrite in place, append
new keys, deletion removes the key), and Python exceptions as `Except` values.
-/

namespace TimeTree

/-- Embeds the `Event` dataclass of `timetree_api/models.py` (the fields the
coordinator and calendar code read; remaining fields are payload-only). -/
structure Event where
  id : String
  calendar_id : String
  title : String
  all_day : Bool
  start_at : Int
  end_at : Int
  start_timezone : String
  end_timezone : String
  recurrences : List String := []
  note : Option String := none
  location : Option String := none
  deleted_at : Option Int := none
  updated_at : Option Int := none
deriving DecidableEq

/-- `Event.is_deleted` property: the event is soft-deleted iff `deleted_at` is set. -/
def Event.is_deleted (e : Event) : Bool := e.deleted_at.isSome

/-- Python `str.startswith`: the prefix's characters lead the string's. -/
def startswith (s pre : String) : Bool := pre.data.isPrefixOf s.data

/-- `Event.is_recurring` property: some recurrence entry starts with `RRULE:`. -/
def Event.is_recurring (e : Event) : Bool :=
  e.recurrences.any (fun r => startswith r ("RRULE:"))

/-- A Python `dict` keyed by strings, in insertion order. -/
abbrev PyDict (β : Type) := List (String × β)

/-- `d[k] = v` on a Python dict: overwrite in place, else append at the end. -/
def dictSet {β : Type} : PyDict β → String → β → PyDict β
  | [], k, v => [(k, v)]
  | (k', v') :: rest, k, v =>
    if k' = k then (k, v) :: rest else (k', v') :: dictSet rest k v

/-- `d.pop(k, None)` on a Python dict: remove the entry for `k` if present. -/
def dictPop {β : Type} : PyDict β → String → PyDict β
  | [], _ => []
  | (k', v') :: rest, k =>
    if k' = k then rest else (k', v') :: dictPop rest k

/-- `d.get(k)` on a Python dict. -/
def dictGet {β : Type} : PyDict β → String → Option β
  | [], _ => none
  | (k', v') :: rest, k => if k' = k then some v' else dictGet rest k

/-- The per-calendar event store: `event_id → Event` (`self._events`). -/
abbrev Store := PyDict Event

/-- State owned by `TimeTreeCalendarCoordinator`: the sync cursor
`self._last_sync_ms` and the event store `self._events`. -/
structure CoordState where
  last_sync_ms : Option Int
  events : Store
deriving DecidableEq

/-- The merge loop of `TimeTreeCalendarCoordinator._async_update_data`
(coordinator.py lines 85-91): each event either removes its id (tombstone) or
is inserted/overwritten, while `latest_updated` tracks the maximum truthy
`updated_at` seen (Python truthiness: `None` and `0` are falsy). -/
def mergeLoop : List Event → Store → Int → Store × Int
  | [], store, latest => (store, latest)
  | e :: rest, store, latest =>
    mergeLoop rest
      (if e.is_deleted then dictPop store e.id else dictSet store e.id e)
      (match e.updated_at with
       | some u => if u ≠ 0 ∧ u > latest then u else latest
       | none => latest)

/-- The successful tail of `_async_update_data` (coordinator.py lines 84-96):
merge the fetched batch into the store and advance the cursor only when the
maximum `updated_at` seen strictly exceeds it. -/
def asyncUpdateDataSuccess (st : CoordState) (events : List Event) : CoordState :=
  let r := mergeLoop events st.events (st.last_sync_ms.getD 0)
  { last_sync_ms := if r.2 > st.last_sync_ms.getD 0 then some r.2 else st.last_sync_ms,
    events := r.1 }

/-- The exception taxonomy of `timetree_api/exceptions.py` relevant to the
coordinator.  `RateLimitError` is a subclass of `ApiResponseError`, so the
coordinator's `except ApiResponseError` clause catches it as well. -/
inductive ApiError where
  | authenticationError
  | apiConnectionError
  | apiResponseError
  | rateLimitError
deriving DecidableEq

/-- Outcome of one `_async_update_data` call: the returned store, an
`UpdateFailed` raise, a `ConfigEntryAuthFailed` raise, or an exception from the
retry fetch that propagates out of the `except AuthenticationError` block
uncaught (Python `except` clauses do not catch exceptions raised inside a
sibling handler). -/
inductive UpdateOutcome where
  | ok (store : Store)
  | updateFailed
  | configEntryAuthFailed
  | uncaught (e : ApiError)
deriving DecidableEq

/-- `TimeTreeCalendarCoordinator._async_update_data` (coordinator.py lines
63-96).  The two possible fetch calls are supplied as already-resolved
`Except` values (`fetch1` for the first call, `fetch2` for the retry after a
successful re-authentication); `reauthOk` is the result of `_try_reauth`.
The coordinator state is threaded explicitly: all error paths return it
unchanged because the merge runs only after a fetch succeeded. -/
def asyncUpdateData (st : CoordState) (fetch1 : Except ApiError (List Event))
    (reauthOk : Bool) (fetch2 : Except ApiError (List Event)) :
    CoordState × UpdateOutcome :=
  match fetch1 with
  | .ok events =>
    let st' := asyncUpdateDataSuccess st events
    (st', .ok st'.events)
  | .error .authenticationError =>
    if reauthOk then
      match fetch2 with
      | .ok events =>
        let st' := asyncUpdateDataSuccess st events
        (st', .ok st'.events)
      | .error e => (st, .uncaught e)
    else (st, .configEntryAuthFailed)
  | .error .apiConnectionError => (st, .updateFailed)
  | .error .apiResponseError => (st, .updateFailed)
  | .error .rateLimitError => (st, .updateFailed)

/-! ### Dictionary lemmas -/

theorem dictGet_dictSet {β : Type} (s : PyDict β) (k k' : String) (v : β) :
    dictGet (dictSet s k v) k' = if k = k' then some v else dictGet s k' := by
  induction s with
  | nil => simp [dictSet, dictGet]
  | cons hd tl ih =>
    obtain ⟨a, b⟩ := hd
    by_cases hak : a = k
    · subst hak
      simp only [dictSet, if_pos rfl, dictGet]
      by_cases h : a = k' <;> simp [h, dictGet]
    · simp only [dictSet, if_neg hak, dictGet]
      by_cases h : a = k'
      · subst h
        have hne : ¬k = a := fun hk => hak hk.symm
        simp [hne]
      · simp [h, ih]

theorem mem_keys_dictSet {β : Type} (s : PyDict β) (k x : String) (v : β) :
    x ∈ (dictSet s k v).map Prod.fst ↔ x = k ∨ x ∈ s.map Prod.fst := by
  induction s with
  | nil => simp [dictSet]
  | cons hd tl ih =>
    obtain ⟨a, b⟩ := hd
    by_cases hak : a = k
    · subst hak; simp [dictSet]; try tauto
    · simp [dictSet, hak, ih]; try tauto

theorem nodup_keys_dictSet {β : Type} (s : PyDict β) (k : String) (v : β)
    (h : (s.map Prod.fst).Nodup) : ((dictSet s k v).map Prod.fst).Nodup := by
  induction s with
  | nil => simp [dictSet]
  | cons hd tl ih =>
    obtain ⟨a, b⟩ := hd
    simp only [List.map_cons, List.nodup_cons] at h
    by_cases hak : a = k
    · subst hak; simpa [dictSet] using h
    · simp only [dictSet, if_neg hak, List.map_cons, List.nodup_cons]
      refine ⟨fun hm => ?_, ih h.2⟩
      rcases (mem_keys_dictSet tl k a v).1 hm with h1 | h1
      · exact hak h1
      · exact h.1 h1

theorem dictPop_sublist {β : Type} (s : PyDict β) (k : String) :
    (dictPop s k).Sublist s := by
  induction s with
  | nil => simp [dictPop]
  | cons hd tl ih =>
    obtain ⟨a, b⟩ := hd
    by_cases hak : a = k
    · rw [show dictPop ((a, b) :: tl) k = tl from by simp [dictPop, hak]]
      exact List.sublist_cons_self (a, b) tl
    · rw [show dictPop ((a, b) :: tl) k = (a, b) :: dictPop tl k from by
        simp [dictPop, hak]]
      exact ih.cons₂ (a, b)

theorem nodup_keys_dictPop {β : Type} (s : PyDict β) (k : String)
    (h : (s.map Prod.fst).Nodup) : ((dictPop s k).map Prod.fst).Nodup :=
  ((dictPop_sublist s k).map Prod.fst).nodup h

theorem dictGet_eq_none_of_not_mem {β : Type} (s : PyDict β) (k : String)
    (h : k ∉ s.map Prod.fst) : dictGet s k = none := by
  induction s with
  | nil => rfl
  | cons hd tl ih =>
    obtain ⟨a, b⟩ := hd
    simp only [List.map_cons, List.mem_cons, not_or] at h
    have hne : ¬a = k := fun hk => h.1 hk.symm
    simp [dictGet, hne, ih h.2]

theorem dictGet_dictPop {β : Type} (s : PyDict β) (k k' : String)
    (h : (s.map Prod.fst).Nodup) :
    dictGet (dictPop s k) k' = if k = k' then none else dictGet s k' := by
  induction s with
  | nil => simp [dictPop, dictGet]
  | cons hd tl ih =>
    obtain ⟨a, b⟩ := hd
    simp only [List.map_cons, List.nodup_cons] at h
    by_cases hak : a = k
    · subst hak
      simp only [dictPop, if_pos rfl]
      by_cases h' : a = k'
      · subst h'
        simp [dictGet_eq_none_of_not_mem tl a h.1]
      · simp [h', dictGet]
    · simp only [dictPop, if_neg hak, dictGet]
      by_cases h' : a = k'
      · subst h'
        have hne : ¬k = a := fun hk => hak hk.symm
        simp [hne, ih h.2]
      · simp [h', ih h.2]

/-! ### C1: the delta-sync merge -/

/-- One merge step of the coordinator loop, viewed through `dictGet`. -/
theorem dictGet_mergeStep (store : Store) (e : Event) (k : String)
    (h : (store.map Prod.fst).Nodup) :
    dictGet (if e.is_deleted then dictPop store e.id else dictSet store e.id e) k
      = if e.id = k then (if e.is_deleted then none else some e) else dictGet store k := by
  by_cases hd : e.is_deleted
  · simp [hd, dictGet_dictPop store e.id k h]
  · simp [hd, dictGet_dictSet store e.id k e]

theorem nodup_keys_mergeStep (store : Store) (e : Event)
    (h : (store.map Prod.fst).Nodup) :
    (((if e.is_deleted then dictPop store e.id else dictSet store e.id e)).map
      Prod.fst).Nodup := by
  by_cases hd : e.is_deleted
  · simp [hd, nodup_keys_dictPop store e.id h]
  · simp [hd, nodup_keys_dictSet store e.id e h]

theorem dictGet_mergeLoop (batch : List Event) :
    ∀ (store : Store) (latest : Int) (k : String), (store.map Prod.fst).Nodup →
      dictGet (mergeLoop batch store latest).1 k
        = batch.foldl
            (fun acc e => if e.id = k then (if e.is_deleted then none else some e) else acc)
            (dictGet store k) := by
  induction batch with
  | nil => intro store latest k _; simp [mergeLoop]
  | cons e rest ih =>
    intro store latest k h
    rw [show mergeLoop (e :: rest) store latest
        = mergeLoop rest
            (if e.is_deleted then dictPop store e.id else dictSet store e.id e)
            (match e.updated_at with
             | some u => if u ≠ 0 ∧ u > latest then u else latest
             | none => latest) from rfl]
    rw [ih _ _ k (nodup_keys_mergeStep store e h)]
    simp [dictGet_mergeStep store e k h]

/-- C1: the merge step of `_async_update_data` processes each event of the
fetched batch in order — a tombstoned event (`deleted_at` set) removes its id
from the store, every other event is inserted or overwritten by id (first
conjunct, stated as a left fold over the batch of the per-event decision); in
particular a store `{A, B}` merged with the batch `[A' (update of A), C (new),
B with deleted_at set]` yields exactly the store `{A', C}` (second conjunct). -/
theorem C1_merge_in_order :
    (∀ (batch : List Event) (store : Store) (latest : Int) (k : String),
        (store.map Prod.fst).Nodup →
        dictGet (mergeLoop batch store latest).1 k
          = batch.foldl
              (fun acc e =>
                if e.id = k then (if e.is_deleted then none else some e) else acc)
              (dictGet store k))
    ∧ (∀ (a a' b c : Event) (da : Int),
        a'.id = "A" → b.id = "B" → c.id = "C" →
        a'.deleted_at = none → c.deleted_at = none →
        (mergeLoop [a', c, { b with deleted_at := some da }] [("A", a), ("B", b)] 0).1
          = [("A", a'), ("C", c)]) := by
  constructor
  · exact fun batch store latest k h => dictGet_mergeLoop batch store latest k h
  · intro a a' b c da ha' hb hc hda hdc
    simp [mergeLoop, Event.is_deleted, ha', hb, hc, hda, hdc, dictSet, dictPop]

/-- Concrete event used by witnesses: id "A", original revision. -/
def evA : Event :=
  { id := "A", calendar_id := "cal", title := "a", all_day := false,
    start_at := 0, end_at := 1000, start_timezone := "UTC", end_timezone := "UTC" }

/-- Concrete event used by witnesses: id "A", updated revision. -/
def evA' : Event := { evA with title := "a2", updated_at := some 7 }

/-- Concrete event used by witnesses: id "B". -/
def evB : Event := { evA with id := "B", title := "b" }

/-- Concrete event used by witnesses: id "C", new. -/
def evC : Event := { evA with id := "C", title := "c", updated_at := some 9 }

theorem C1_merge_in_order_witness :
    (mergeLoop [evA', evC, { evB with deleted_at := some 5 }] [("A", evA), ("B", evB)] 0).1
      = [("A", evA'), ("C", evC)] :=
  C1_merge_in_order.2 evA evA' evB evC 5 rfl rfl rfl rfl rfl

/-! ### C3: cursor monotonicity -/

theorem mergeLoop_latest_ge (batch : List Event) :
    ∀ (store : Store) (latest : Int), latest ≤ (mergeLoop batch store latest).2 := by
  induction batch with
  | nil => intro store latest; simp [mergeLoop]
  | cons e rest ih =>
    intro store latest
    rw [show mergeLoop (e :: rest) store latest
        = mergeLoop rest
            (if e.is_deleted then dictPop store e.id else dictSet store e.id e)
            (match e.updated_at with
             | some u => if u ≠ 0 ∧ u > latest then u else latest
             | none => latest) from rfl]
    refine le_trans ?_ (ih _ _)
    cases hu : e.updated_at with
    | none => simp
    | some u =>
      by_cases h : u ≠ 0 ∧ u > latest
      · simp [h, le_of_lt h.2]
      · simp [h]

theorem mergeLoop_latest_stale (batch : List Event) :
    ∀ (store : Store) (latest : Int),
      (∀ e ∈ batch, ∀ u, e.updated_at = some u → u ≤ latest) →
      (mergeLoop batch store latest).2 = latest := by
  induction batch with
  | nil => intro store latest _; simp [mergeLoop]
  | cons e rest ih =>
    intro store latest h
    rw [show mergeLoop (e :: rest) store latest
        = mergeLoop rest
            (if e.is_deleted then dictPop store e.id else dictSet store e.id e)
            (match e.updated_at with
             | some u => if u ≠ 0 ∧ u > latest then u else latest
             | none => latest) from rfl]
    have hstep : (match e.updated_at with
        | some u => if u ≠ 0 ∧ u > latest then u else latest
        | none => latest) = latest := by
      cases hu : e.updated_at with
      | none => rfl
      | some u =>
        have := h e (List.mem_cons_self e rest) u hu
        simp [show ¬(u ≠ 0 ∧ u > latest) from fun hc => absurd this (not_le.2 hc.2)]
    rw [hstep]
    exact ih _ latest (fun e' he' => h e' (List.mem_cons_of_mem e he'))

/-- C3: across every successful refresh the sync cursor is monotonically
non-decreasing (first conjunct), and a batch in which every event's
`updated_at` is at most the current cursor leaves the cursor unchanged
(second conjunct) — the cursor advances only when the maximum `updated_at`
seen strictly exceeds it. -/
theorem C3_cursor_monotone (st : CoordState) (batch : List Event) :
    st.last_sync_ms.getD 0 ≤ (asyncUpdateDataSuccess st batch).last_sync_ms.getD 0
    ∧ ((∀ e ∈ batch, ∀ u, e.updated_at = some u → u ≤ st.last_sync_ms.getD 0) →
        (asyncUpdateDataSuccess st batch).last_sync_ms = st.last_sync_ms) := by
  constructor
  · unfold asyncUpdateDataSuccess
    by_cases h : (mergeLoop batch st.events (st.last_sync_ms.getD 0)).2 > st.last_sync_ms.getD 0
    · simp [h, le_of_lt h]
    · simp [h]
  · intro hstale
    unfold asyncUpdateDataSuccess
    have := mergeLoop_latest_stale batch st.events (st.last_sync_ms.getD 0) hstale
    simp [this]

/-- Concrete stale event for the C3 witness. -/
def evStale : Event := { evA with updated_at := some 50 }

theorem C3_cursor_monotone_witness :
    (⟨some 100, []⟩ : CoordState).last_sync_ms.getD 0
        ≤ (asyncUpdateDataSuccess ⟨some 100, []⟩ [evStale]).last_sync_ms.getD 0
    ∧ (asyncUpdateDataSuccess ⟨some 100, []⟩ [evStale]).last_sync_ms
        = (⟨some 100, []⟩ : CoordState).last_sync_ms := by
  refine ⟨(C3_cursor_monotone ⟨some 100, []⟩ [evStale]).1,
    (C3_cursor_monotone ⟨some 100, []⟩ [evStale]).2 ?_⟩
  intro e he u hu
  simp only [List.mem_singleton] at he
  subst he
  have h50 : some (50 : Int) = some u := hu
  injection h50 with h50
  show u ≤ (100 : Int)
  omega

/-! ### C4: failure atomicity of refresh -/

/-- C4: when the event fetch of `_async_update_data` fails with a connection
error or a non-authentication API error (including its rate-limit
specialisation), the error propagates as `UpdateFailed` and the coordinator
state — event store and sync cursor — is returned exactly unchanged; an error
raised by the post-reauthentication retry fetch likewise propagates with the
state unchanged.  The merge runs only in the success branch, so no partial
batch is ever committed. -/
theorem C4_failure_atomic (st : CoordState) (r : Bool)
    (f2 : Except ApiError (List Event)) :
    asyncUpdateData st (.error .apiConnectionError) r f2 = (st, .updateFailed)
    ∧ asyncUpdateData st (.error .apiResponseError) r f2 = (st, .updateFailed)
    ∧ asyncUpdateData st (.error .rateLimitError) r f2 = (st, .updateFailed)
    ∧ (∀ e : ApiError,
        asyncUpdateData st (.error .authenticationError) true (.error e)
          = (st, .uncaught e)) :=
  ⟨rfl, rfl, rfl, fun _ => rfl⟩

/-! ### C2: paginated event sync (`timetree-api/src/timetree_api/_client.py`) -/

/-- One decamelized JSON response of the events endpooint, as inspected by
`TimeTreeApiClient.async_get_events` (timetree-api `_client.py` lines 153-177):
a dict carrying `events`/`chunk`/`since` (`chunk` defaults to false, `since`
may be absent), a bare list of events, or any other JSON value (which yields an
empty final page).  Raw event payloads are abstract in `α`; decoding
(`Event.from_api_response`) is the supplied `decode` function. -/
inductive EventsResp (α : Type) where
  | dict (events : List α) (chunk : Bool) (since : Option Int)
  | bare (events : List α)
  | other

/-- The `while True` pagination loop of `async_get_events`.  The scripted
server responses stand in for successive `_request` results; `cursor` is the
`since` value the next request would send, `last_since` the running result
cursor, `all_events` the accumulator, and `reqs` records the cursor attached
to each outgoing request.  Running out of scripted responses while `chunk` is
still true models a fetch that does not complete (`none`). -/
def getEventsLoop {α : Type} (decode : α → Event) :
    List (EventsResp α) → Option Int → Option Int → List Event → List (Option Int) →
    Option (List Event × Option Int × List (Option Int))
  | [], _, _, _, _ => none
  | r :: rest, cursor, last_since, all_events, reqs =>
    match r with
    | .dict evs chunk since =>
      let last_since' := if since.isSome then since else last_since
      let all' := all_events ++ evs.map decode
      if chunk then getEventsLoop decode rest since last_since' all' (reqs ++ [cursor])
      else some (all', last_since', reqs ++ [cursor])
    | .bare evs => some (all_events ++ evs.map decode, last_since, reqs ++ [cursor])
    | .other => some (all_events, last_since, reqs ++ [cursor])

/-- `TimeTreeApiClient.async_get_events(calendar_id, since=...)`: both
`cursor` and `last_since` start at the caller's `since`. -/
def asyncGetEvents {α : Type} (decode : α → Event) (resps : List (EventsResp α))
    (since : Option Int) : Option (List Event × Option Int × List (Option Int)) :=
  getEventsLoop decode resps since since [] []

/-- C2: for three successive dict-shaped responses with `chunk = true, true,
false` and cursors `s1, s2, s3`, the paginated sync returns the concatenation
of the three event lists in order, the final cursor `s3`, and it sent the
caller's `since` on the first request and each response's `since` as the next
request's cursor. -/
theorem C2_pagination {α : Type} (decode : α → Event)
    (es1 es2 es3 : List α) (s1 s2 s3 : Int) (since : Option Int) :
    asyncGetEvents decode
        [.dict es1 true (some s1), .dict es2 true (some s2), .dict es3 false (some s3)]
        since
      = some ((es1 ++ es2 ++ es3).map decode, some s3, [since, some s1, some s2]) := by
  simp [asyncGetEvents, getEventsLoop, List.map_append, List.append_assoc]

/-! ### C5: `TimeTreeAuth.get_headers` (`timetree_api/_auth.py`) -/

/-- Header name constant `HEADER_CSRF` of `timetree_api/const.py`. -/
def HEADER_CSRF : String := "X-CSRF-Token"

/-- Header name constant `HEADER_TIMETREE_APP` of `timetree_api/const.py`. -/
def HEADER_TIMETREE_APP : String := "X-TimeTreeA"

/-- Constant `TIMETREE_APP_ID` of `timetree_api/const.py`. -/
def TIMETREE_APP_ID : String := "web/2.1.0/de"

/-- The mutable state of `TimeTreeAuth`: the CSRF token and the
authenticated flag. -/
structure AuthState where
  csrf_token : Option String
  authenticated : Bool
deriving DecidableEq

/-- `TimeTreeAuth._build_headers` (lines 106-113): content type plus the
application-identifier header, and — whenever a CSRF token is held — the CSRF
header as well. -/
def buildHeaders (st : AuthState) : PyDict String :=
  let headers : PyDict String :=
    [("Content-Type", "application/json"), (HEADER_TIMETREE_APP, TIMETREE_APP_ID)]
  match st.csrf_token with
  | some tok => dictSet headers HEADER_CSRF tok
  | none => headers

/-- `TimeTreeAuth.get_headers` (lines 86-100): raises `AuthenticationError`
unless authenticated with a CSRF token, then builds the base headers and, when
`mutating`, (re-)assigns the CSRF header. -/
def getHeaders (st : AuthState) (mutating : Bool) : Except String (PyDict String) :=
  if st.authenticated = false ∨ st.csrf_token = none then
    .error ("Not authenticated. Call authenticate() first.")
  else
    let headers := buildHeaders st
    .ok (if mutating then
          (match st.csrf_token with
           | some tok => dictSet headers HEADER_CSRF tok
           | none => headers)
         else headers)

/-- C5 counterexample: in the authenticated state holding CSRF token "tok",
`get_headers(mutating=False)` already contains the CSRF header
(`_build_headers` adds it whenever a token is held), refuting the claim that
the CSRF header is included if and only if `mutating` is true. -/
theorem C5_counterexample :
    getHeaders ⟨some "tok", true⟩ false
      = .ok [("Content-Type", "application/json"),
             (HEADER_TIMETREE_APP, TIMETREE_APP_ID), (HEADER_CSRF, "tok")] := by
  rfl

/-- C5 amended: `get_headers(mutating)` fails with `AuthenticationError`
whenever the manager is not authenticated or holds no CSRF token; otherwise it
returns a header set that always includes the application-identifier header
and always includes the CSRF header — for non-mutating requests as well — so
the result does not depend on `mutating`. -/
theorem C5_headers (st : AuthState) (m : Bool) :
    ((st.authenticated = false ∨ st.csrf_token = none) →
        getHeaders st m = .error ("Not authenticated. Call authenticate() first."))
    ∧ (∀ tok, st.authenticated = true → st.csrf_token = some tok →
        getHeaders st m
          = .ok [("Content-Type", "application/json"),
                 (HEADER_TIMETREE_APP, TIMETREE_APP_ID), (HEADER_CSRF, tok)]) := by
  constructor
  · intro h
    simp [getHeaders, h]
  · intro tok hauth htok
    have hcond : ¬(st.authenticated = false ∨ st.csrf_token = none) := by
      simp [hauth, htok]
    cases m <;>
      simp [getHeaders, hcond, hauth, buildHeaders, htok, dictSet,
        HEADER_CSRF, HEADER_TIMETREE_APP, TIMETREE_APP_ID]

theorem C5_headers_witness :
    getHeaders ⟨none, false⟩ true
        = .error ("Not authenticated. Call authenticate() first.")
    ∧ getHeaders ⟨some "t", true⟩ true
        = .ok [("Content-Type", "application/json"),
               (HEADER_TIMETREE_APP, TIMETREE_APP_ID), (HEADER_CSRF, "t")] :=
  ⟨(C5_headers ⟨none, false⟩ true).1 (Or.inr rfl),
   (C5_headers ⟨some "t", true⟩ true).2 "t" rfl rfl⟩

/-! ### C6/C7: the view mapping (`calendar.py`) -/

/-- A timezone environment: the fixed UTC offset, in milliseconds, of each
IANA zone name.  This models `ZoneInfo` local-date resolution for fixed-offset
zones (`UTC`, `Etc/GMT±N`, ...); the mapping and guard logic under
verification does not depend on how a zone resolves instants to local dates. -/
structure TzEnv where
  offset : String → Int

/-- Milliseconds per day. -/
def msPerDay : Int := 86400000

/-- `_ts_to_date` (calendar.py lines 233-236): the local calendar date — as a
count of days since the epoch — of instant `ts_ms` in zone `tz_name`. -/
def ts_to_date (env : TzEnv) (ts_ms : Int) (tz_name : String) : Int :=
  (ts_ms + env.offset tz_name).fdiv msPerDay

/-- A Home Assistant `CalendarEvent` start/end value: a plain date (days since
epoch) for all-day occurrences, or a tz-aware datetime (instant in epoch
milliseconds plus attached zone).  Aware datetimes compare by instant. -/
inductive HAWhen where
  | date (day : Int)
  | datetime (instant_ms : Int) (tz_name : String)
deriving DecidableEq

/-- The Home Assistant `CalendarEvent` view model (the fields `calendar.py`
populates). -/
structure CalendarEvent where
  summary : String
  start : HAWhen
  end_ : HAWhen
  description : Option String
  location : Option String
  uid : String
deriving DecidableEq

/-- `_to_datetime` (lines 197-202): `fromtimestamp(ts/1000, UTC).astimezone(tz)`
keeps the instant and attaches the event's zone. -/
def to_datetime (ev : Event) (use_end : Bool) : HAWhen :=
  .datetime (if use_end then ev.end_at else ev.start_at)
    (if use_end then ev.end_timezone else ev.start_timezone)

/-- `_map_event` (lines 205-230): all-day events map to local dates with the
exclusive-end guard (`end ≤ start → end := start + 1`); timed events map to
their two instants. -/
def map_event (env : TzEnv) (ev : Event) : CalendarEvent :=
  if ev.all_day then
    let start := ts_to_date env ev.start_at ev.start_timezone
    let end0 := ts_to_date env ev.end_at ev.end_timezone
    let end1 := if end0 ≤ start then start + 1 else end0
    { summary := ev.title, start := .date start, end_ := .date end1,
      description := ev.note, location := ev.location, uid := ev.id }
  else
    { summary := ev.title, start := to_datetime ev false,
      end_ := to_datetime ev true,
      description := ev.note, location := ev.location, uid := ev.id }

/-- The occurrence `_expand_recurring` builds for one rule-generated start
instant (lines 296-327): the original duration `end_at - start_at` is carried
forward; all-day occurrences take both local dates in the event's start
timezone and apply the exclusive-end guard; the uid is
`{event_id}_{occurrence_start_ms}`. -/
def expandOccurrence (env : TzEnv) (ev : Event) (occ_start_ms : Int) :
    CalendarEvent :=
  let duration_ms := ev.end_at - ev.start_at
  let occ_end_ms := occ_start_ms + duration_ms
  if ev.all_day then
    let sd := ts_to_date env occ_start_ms ev.start_timezone
    let ed0 := ts_to_date env occ_end_ms ev.start_timezone
    let ed := if ed0 ≤ sd then sd + 1 else ed0
    { summary := ev.title, start := .date sd, end_ := .date ed,
      description := ev.note, location := ev.location,
      uid := ev.id ++ "_" ++ toString occ_start_ms }
  else
    { summary := ev.title, start := .datetime occ_start_ms ev.start_timezone,
      end_ := .datetime occ_end_ms ev.start_timezone,
      description := ev.note, location := ev.location,
      uid := ev.id ++ "_" ++ toString occ_start_ms }

/-- `end > start` on one occurrence: date pairs compare as dates, aware
datetime pairs compare by instant (one occurrence never mixes the two). -/
def endAfterStart (c : CalendarEvent) : Bool :=
  match c.start, c.end_ with
  | .date s, .date e => decide (s < e)
  | .datetime s _, .datetime e _ => decide (s < e)
  | _, _ => false

/-- The all-zero (UTC-only) timezone environment. -/
def utcEnv : TzEnv := ⟨fun _ => 0⟩

/-- A timed event of zero duration (`start_at = end_at`). -/
def evZero : Event :=
  { id := "z", calendar_id := "cal", title := "t", all_day := false,
    start_at := 0, end_at := 0, start_timezone := "UTC", end_timezone := "UTC" }

/-- C6 counterexample: a timed event with `start_at = end_at` maps to an
occurrence with `end = start` — `_map_event` has no duration guard for timed
events, refuting "every occurrence satisfies end > start ... for timed events
as well as all-day events". -/
theorem C6_counterexample : endAfterStart (map_event utcEnv evZero) = false := by
  decide

/-- C6 amended: every all-day occurrence — mapped or recurrence-expanded —
satisfies `end > start` thanks to the exclusive-end guard; a timed occurrence
satisfies `end > start` whenever the event has positive duration
(`start_at < end_at`), which the code does not enforce for zero or negative
durations. -/
theorem C6_positive_duration (env : TzEnv) (ev : Event) :
    (ev.all_day = true → endAfterStart (map_event env ev) = true)
    ∧ (ev.all_day = false → ev.start_at < ev.end_at →
        endAfterStart (map_event env ev) = true)
    ∧ (∀ occ_ms : Int,
        (ev.all_day = true → endAfterStart (expandOccurrence env ev occ_ms) = true)
        ∧ (ev.all_day = false → ev.start_at < ev.end_at →
            endAfterStart (expandOccurrence env ev occ_ms) = true)) := by
  refine ⟨fun h => ?_, fun h hlt => ?_, fun occ_ms => ⟨fun h => ?_, fun h hlt => ?_⟩⟩
  · simp only [map_event, h, if_pos, endAfterStart]
    split_ifs with hle
    all_goals simp
    all_goals omega
  · simp only [map_event, h, Bool.false_eq_true, if_false, endAfterStart, to_datetime]
    simpa using hlt
  · simp only [expandOccurrence, h, if_pos, endAfterStart]
    split_ifs with hle
    all_goals simp
    all_goals omega
  · simp only [expandOccurrence, h, Bool.false_eq_true, if_false, endAfterStart]
    simp
    omega

/-- A single-day all-day event (`start_at = end_at`, equal zones). -/
def evAllday1 : Event :=
  { id := "d", calendar_id := "cal", title := "t", all_day := true,
    start_at := 0, end_at := 0, start_timezone := "UTC", end_timezone := "UTC" }

theorem C6_positive_duration_witness :
    endAfterStart (map_event utcEnv evAllday1) = true
    ∧ endAfterStart (map_event utcEnv evA) = true :=
  ⟨(C6_positive_duration utcEnv evAllday1).1 rfl,
   (C6_positive_duration utcEnv evA).2.1 rfl (by decide)⟩

/-- An all-day event with `start_at = end_at` whose start and end zones sit on
opposite sides of the date line. -/
def evSplitTz : Event :=
  { id := "w", calendar_id := "cal", title := "t", all_day := true,
    start_at := 36000000, end_at := 36000000,
    start_timezone := "Etc/GMT+12", end_timezone := "Etc/GMT-14" }

/-- Offsets of the two IANA fixed zones used by `evSplitTz` (POSIX-inverted
signs: `Etc/GMT+12` is UTC−12h, `Etc/GMT-14` is UTC+14h). -/
def splitTzEnv : TzEnv :=
  ⟨fun z =>
    if z = "Etc/GMT+12" then -43200000
    else if z = "Etc/GMT-14" then 50400000
    else 0⟩

/-- C7 counterexample: for the all-day event `evSplitTz` with
`start_at = end_at` (instant 1970-01-01T10:00Z), the start zone resolves the
instant to 1969-12-31 (day −1) and the end zone to 1970-01-02 (day 1), so the
mapped occurrence has `end = start + 2 days`, refuting
"`end_date == start_date + 1 day` for every all-day event with
`start_at = end_at`". -/
theorem C7_counterexample :
    (map_event splitTzEnv evSplitTz).start = .date (-1)
    ∧ (map_event splitTzEnv evSplitTz).end_ = .date 1
    ∧ ((1 : Int) ≠ -1 + 1) := by
  refine ⟨by decide, by decide, by decide⟩

/-- C7 amended: for an all-day event, the mapped start is the local start
date; when start and end *timezones are equal* and `start_at = end_at`, the
mapped exclusive end is start date + 1; whenever the computed exclusive end
date is ≤ the start date it is forced to start date + 1 (timezones equal or
not); and every recurrence-expanded all-day occurrence of a `start_at =
end_at` event ends exactly one day after its start date (the expansion uses
the start timezone for both ends). -/
theorem C7_allday_single_day (env : TzEnv) (ev : Event) (h : ev.all_day = true) :
    ((map_event env ev).start = .date (ts_to_date env ev.start_at ev.start_timezone))
    ∧ (ev.start_timezone = ev.end_timezone → ev.start_at = ev.end_at →
        (map_event env ev).end_
          = .date (ts_to_date env ev.start_at ev.start_timezone + 1))
    ∧ (ts_to_date env ev.end_at ev.end_timezone
          ≤ ts_to_date env ev.start_at ev.start_timezone →
        (map_event env ev).end_
          = .date (ts_to_date env ev.start_at ev.start_timezone + 1))
    ∧ (∀ occ_ms : Int, ev.start_at = ev.end_at →
        (expandOccurrence env ev occ_ms).end_
          = .date (ts_to_date env occ_ms ev.start_timezone + 1)) := by
  refine ⟨?_, fun htz hts => ?_, fun hle => ?_, fun occ_ms hts => ?_⟩
  · simp [map_event, h]
  · simp [map_event, h, htz, hts]
  · simp [map_event, h, hle]
  · simp [expandOccurrence, h, ← hts]

theorem C7_allday_single_day_witness :
    (map_event utcEnv evAllday1).end_
      = .date (ts_to_date utcEnv evAllday1.start_at evAllday1.start_timezone + 1) :=
  (C7_allday_single_day utcEnv evAllday1 rfl).2.1 rfl rfl

/-! ### C8: recurrence parse-failure policy (`_expand_recurring`) -/

/-- Result of the rule-collection phase of `_expand_recurring` (calendar.py
lines 260-290): either fall back to the single mapped occurrence, or the
parsed rules and exclusion instants, in encounter order, handed to the rule
set. -/
inductive RuleOutcome (ρ ι : Type) where
  | fallback
  | expanded (rules : List ρ) (exdates : List ι)
deriving DecidableEq

/-- The comma-separated payload of an `EXDATE:` entry: split, stripped,
empty parts skipped (lines 275-279). -/
def exDateParts (s : String) : List String :=
  (((s.drop 7).splitOn ",").map (fun p => p.trim)).filter (fun p => p ≠ "")

/-- The rule-collection loop of `_expand_recurring` (lines 260-290).
`parseRule` models `rrulestr(_fix_rrule_until_tz(rule_str), dtstart)` and
`parseEx` models `dateutil.parser.parse` plus naive-timezone attachment; an
`.error` value stands for the `ValueError`/`TypeError` the code catches, so
the collection itself is total — no parse exception escapes.  A failed RRULE
parse aborts the whole collection; a failed EXDATE part is skipped; if no
RRULE entry was collected the outcome is the fallback as well. -/
def processRecurrences {ρ ι : Type} (parseRule : String → Except String ρ)
    (parseEx : String → Except String ι) :
    List String → List ρ → List ι → Bool → RuleOutcome ρ ι
  | [], rules, exdates, hasRRule =>
    if hasRRule then .expanded rules exdates else .fallback
  | rs :: rest, rules, exdates, hasRRule =>
    if startswith rs ("RRULE:") then
      match parseRule rs with
      | .ok r => processRecurrences parseRule parseEx rest (rules ++ [r]) exdates true
      | .error _ => .fallback
    else if startswith rs ("EXDATE:") then
      processRecurrences parseRule parseEx rest rules
        (exdates ++ (exDateParts rs).filterMap (fun p => (parseEx p).toOption))
        hasRRule
    else processRecurrences parseRule parseEx rest rules exdates hasRRule

/-- `_expand_recurring` (lines 239-329): collect rules, then either fall back
to the single mapped occurrence or map the rule-set enumeration
(`rset.between(range_start, range_end, inc=True)`, the abstract `between`
oracle over collected rules and exclusions) through the occurrence builder. -/
def expand_recurring {ρ ι : Type} (env : TzEnv)
    (parseRule : String → Except String ρ) (parseEx : String → Except String ι)
    (between : List ρ → List ι → List Int) (ev : Event) : List CalendarEvent :=
  match processRecurrences parseRule parseEx ev.recurrences [] [] false with
  | .fallback => [map_event env ev]
  | .expanded rules exdates =>
    (between rules exdates).map (expandOccurrence env ev)

/-- The rules a failure-free collection gathers: each `RRULE:` entry's parse
result, in order. -/
def collectedRules {ρ : Type} (parseRule : String → Except String ρ) :
    List String → List ρ
  | [] => []
  | rs :: rest =>
    if startswith rs ("RRULE:") then
      match parseRule rs with
      | .ok r => r :: collectedRules parseRule rest
      | .error _ => collectedRules parseRule rest
    else collectedRules parseRule rest

/-- The exclusion instants the collection gathers: for each `EXDATE:` entry,
the successfully parsed parts in order, failing parts skipped. -/
def collectedExdates {ι : Type} (parseEx : String → Except String ι) :
    List String → List ι
  | [] => []
  | rs :: rest =>
    if startswith rs ("RRULE:") then collectedExdates parseEx rest
    else if startswith rs ("EXDATE:") then
      (exDateParts rs).filterMap (fun p => (parseEx p).toOption)
        ++ collectedExdates parseEx rest
    else collectedExdates parseEx rest

theorem processRecurrences_fail {ρ ι : Type} (parseRule : String → Except String ρ)
    (parseEx : String → Except String ι) (recs : List String) :
    ∀ (rules : List ρ) (exdates : List ι) (hasR : Bool),
      (∃ bad ∈ recs, startswith bad ("RRULE:") = true
        ∧ ∃ msg, parseRule bad = .error msg) →
      processRecurrences parseRule parseEx recs rules exdates hasR = .fallback := by
  induction recs with
  | nil => rintro rules exdates hasR ⟨bad, hmem, _⟩; cases hmem
  | cons rs rest ih =>
    rintro rules exdates hasR ⟨bad, hmem, hpre, msg, herr⟩
    by_cases h1 : startswith rs ("RRULE:") = true
    · rcases hp : parseRule rs with r | r
      · simp [processRecurrences, h1, hp]
      · simp only [processRecurrences, h1, if_true, hp]
        rcases List.mem_cons.1 hmem with rfl | hmem'
        · rw [herr] at hp; cases hp
        · exact ih _ _ _ ⟨bad, hmem', hpre, msg, herr⟩
    · have hmem' : bad ∈ rest := by
        rcases List.mem_cons.1 hmem with rfl | hmem'
        · exact absurd hpre h1
        · exact hmem'
      by_cases h2 : startswith rs ("EXDATE:") = true
      · simp only [processRecurrences, h1, h2]
        simp only [Bool.false_eq_true, if_false, if_true]
        exact ih _ _ _ ⟨bad, hmem', hpre, msg, herr⟩
      · simp only [processRecurrences, h1, h2]
        simp only [Bool.false_eq_true, if_false]
        exact ih _ _ _ ⟨bad, hmem', hpre, msg, herr⟩

theorem processRecurrences_ok {ρ ι : Type} (parseRule : String → Except String ρ)
    (parseEx : String → Except String ι) (recs : List String) :
    ∀ (rules : List ρ) (exdates : List ι) (hasR : Bool),
      (∀ rs ∈ recs, startswith rs ("RRULE:") = true → ∃ r, parseRule rs = .ok r) →
      processRecurrences parseRule parseEx recs rules exdates hasR
        = if (hasR || recs.any (fun rs => startswith rs ("RRULE:"))) = true
          then .expanded (rules ++ collectedRules parseRule recs)
            (exdates ++ collectedExdates parseEx recs)
          else .fallback := by
  induction recs with
  | nil =>
    intro rules exdates hasR _
    cases hasR <;> simp [processRecurrences, collectedRules, collectedExdates]
  | cons rs rest ih =>
    intro rules exdates hasR hok
    by_cases h1 : startswith rs ("RRULE:") = true
    · obtain ⟨r, hr⟩ := hok rs (List.mem_cons_self rs rest) h1
      simp only [processRecurrences, h1, if_true, hr]
      rw [ih (rules ++ [r]) exdates true
        (fun rs' h' hp' => hok rs' (List.mem_cons_of_mem rs h') hp')]
      simp [collectedRules, collectedExdates, h1, hr, List.append_assoc]
    · by_cases h2 : startswith rs ("EXDATE:") = true
      · simp only [processRecurrences, h1, h2]
        simp only [Bool.false_eq_true, if_false, if_true]
        rw [ih _ _ hasR (fun rs' h' hp' => hok rs' (List.mem_cons_of_mem rs h') hp')]
        simp [collectedRules, collectedExdates, h1, h2, List.append_assoc]
      · simp only [processRecurrences, h1, h2]
        simp only [Bool.false_eq_true, if_false]
        rw [ih _ _ hasR (fun rs' h' hp' => hok rs' (List.mem_cons_of_mem rs h') hp')]
        simp [collectedRules, collectedExdates, h1, h2]

/-- C8: the parse-failure policy of recurrence expansion.  First conjunct: a
parse failure of any single `RRULE:` entry aborts expansion for the whole
event and yields the single-occurrence fallback `[_map_event(event)]`.
Second conjunct: when every `RRULE:` entry parses (and at least one exists),
expansion proceeds over exactly the parsed rules together with the
successfully parsed `EXDATE` instants — a failing `EXDATE` part is skipped
for that instant only and aborts nothing.  The collection is a total
function of the parse results (the caught `ValueError`/`TypeError` are
modelled as `.error` values), so no parsing exception propagates. -/
theorem C8_parse_failure_policy {ρ ι : Type} (env : TzEnv)
    (parseRule : String → Except String ρ) (parseEx : String → Except String ι)
    (between : List ρ → List ι → List Int) (ev : Event) :
    (∀ bad ∈ ev.recurrences, startswith bad ("RRULE:") = true →
        (∃ msg, parseRule bad = .error msg) →
        expand_recurring env parseRule parseEx between ev = [map_event env ev])
    ∧ ((∀ rs ∈ ev.recurrences, startswith rs ("RRULE:") = true →
          ∃ r, parseRule rs = .ok r) →
        (∃ rs ∈ ev.recurrences, startswith rs ("RRULE:") = true) →
        expand_recurring env parseRule parseEx between ev
          = (between (collectedRules parseRule ev.recurrences)
              (collectedExdates parseEx ev.recurrences)).map
            (expandOccurrence env ev)) := by
  constructor
  · intro bad hmem hpre herr
    unfold expand_recurring
    rw [processRecurrences_fail parseRule parseEx ev.recurrences [] [] false
      ⟨bad, hmem, hpre, herr⟩]
  · intro hok hex
    unfold expand_recurring
    rw [processRecurrences_ok parseRule parseEx ev.recurrences [] [] false hok]
    have hany : ev.recurrences.any (fun rs => startswith rs ("RRULE:")) = true := by
      rw [List.any_eq_true]
      obtain ⟨rs, hmem, hpre⟩ := hex
      exact ⟨rs, hmem, hpre⟩
    simp [hany]

/-- Concrete event whose single recurrence entry fails to parse. -/
def evBadRule : Event := { evA with recurrences := ["RRULE:BAD"] }

/-- Concrete event with one parseable rule and one `EXDATE` entry whose
second part fails to parse. -/
def evGoodRule : Event := { evA with recurrences := ["RRULE:GOOD", "EXDATE:X,Y"] }

/-- Concrete rule parser for witnesses: only "RRULE:GOOD" parses. -/
def prWitness : String → Except String Int :=
  fun s => if s = "RRULE:GOOD" then .ok 1 else .error "unparseable"

/-- Concrete exclusion parser for witnesses: only "X" parses. -/
def peWitness : String → Except String Int :=
  fun s => if s = "X" then .ok 10 else .error "unparseable"

/-- Concrete rule-set enumerator for witnesses. -/
def btwWitness : List Int → List Int → List Int := fun _ _ => [0]

theorem C8_parse_failure_policy_witness :
    expand_recurring utcEnv prWitness peWitness btwWitness evBadRule
      = [map_event utcEnv evBadRule]
    ∧ expand_recurring utcEnv prWitness peWitness btwWitness evGoodRule
      = (btwWitness (collectedRules prWitness evGoodRule.recurrences)
          (collectedExdates peWitness evGoodRule.recurrences)).map
        (expandOccurrence utcEnv evGoodRule) := by
  constructor
  · exact (C8_parse_failure_policy utcEnv prWitness peWitness btwWitness
      evBadRule).1 "RRULE:BAD" (by simp [evBadRule, evA]) (by decide)
      ⟨"unparseable", by simp [prWitness]⟩
  · refine (C8_parse_failure_policy utcEnv prWitness peWitness btwWitness
      evGoodRule).2 ?_ ⟨"RRULE:GOOD", by simp [evGoodRule, evA], by decide⟩
    intro rs hmem hpre
    have hmem' : rs = "RRULE:GOOD" ∨ rs = "EXDATE:X,Y" := by
      simpa [evGoodRule, evA] using hmem
    rcases hmem' with rfl | rfl
    · exact ⟨1, by simp [prWitness]⟩
    · exact absurd hpre (by decide)

/-! ### C9: the serialization codec (`timetree_api/_serialization.py`) -/

/-- The substitution of `_SNAKE_TO_CAMEL = re.compile(r"_([a-z])")` with
`lambda m: m.group(1).upper()`: scanning left to right, each `_x` with `x` an
ASCII lowercase letter is replaced by `X`; everything else is copied. -/
def camelChars : List Char → List Char
  | [] => []
  | [c] => [c]
  | a :: b :: rest =>
    if a = '_' ∧ b.isLower = true then b.toUpper :: camelChars rest
    else a :: camelChars (b :: rest)

/-- The substitution of `_CAMEL_TO_SNAKE = re.compile(r"(?<=[a-z0-9])([A-Z])")`
with `r"_\1"`: an underscore is inserted before every ASCII uppercase letter
whose predecessor in the original string is a lowercase letter or digit. -/
def snakeInsert : List Char → List Char
  | [] => []
  | [c] => [c]
  | a :: b :: rest =>
    if (a.isLower = true ∨ a.isDigit = true) ∧ b.isUpper = true then
      a :: '_' :: snakeInsert (b :: rest)
    else a :: snakeInsert (b :: rest)

/-- `_to_camel` (lines 16-17). -/
def to_camel (s : String) : String := ⟨camelChars s.data⟩

/-- `_to_snake` (lines 12-13): insert underscores, then `.lower()`
(ASCII case mapping; the keys at issue are ASCII). -/
def to_snake (s : String) : String := ⟨(snakeInsert s.data).map Char.toLower⟩

/-! Auxiliary character-arithmetic lemmas. -/

theorem uint32_le_iff_toNat (a b : UInt32) : a ≤ b ↔ a.toNat ≤ b.toNat := Iff.rfl

theorem char_toNat_ofNat (m : Nat) (h1 : m < 55296) : (Char.ofNat m).toNat = m := by
  have hv : Nat.isValidChar m := Or.inl h1
  rw [Char.ofNat, dif_pos hv]
  simp [Char.ofNatAux, Char.toNat, UInt32.toNat, BitVec.ofNatLt]

theorem char_isLower_iff (c : Char) :
    c.isLower = true ↔ 97 ≤ c.toNat ∧ c.toNat ≤ 122 := by
  simp only [Char.isLower, Bool.and_eq_true, decide_eq_true_eq]
  exact and_congr (ge_iff_le.trans (uint32_le_iff_toNat _ _)) (uint32_le_iff_toNat _ _)

theorem char_isUpper_iff (c : Char) :
    c.isUpper = true ↔ 65 ≤ c.toNat ∧ c.toNat ≤ 90 := by
  simp only [Char.isUpper, Bool.and_eq_true, decide_eq_true_eq]
  exact and_congr (ge_iff_le.trans (uint32_le_iff_toNat _ _)) (uint32_le_iff_toNat _ _)

theorem char_isDigit_iff (c : Char) :
    c.isDigit = true ↔ 48 ≤ c.toNat ∧ c.toNat ≤ 57 := by
  simp only [Char.isDigit, Bool.and_eq_true, decide_eq_true_eq]
  exact and_congr (ge_iff_le.trans (uint32_le_iff_toNat _ _)) (uint32_le_iff_toNat _ _)

theorem char_toUpper_of_lower (c : Char) (h : c.isLower = true) :
    c.toUpper = Char.ofNat (c.toNat - 32) := by
  obtain ⟨h1, h2⟩ := (char_isLower_iff c).1 h
  rw [Char.toUpper, if_pos ⟨h1, h2⟩]

theorem isUpper_toUpper (c : Char) (h : c.isLower = true) :
    c.toUpper.isUpper = true := by
  obtain ⟨h1, h2⟩ := (char_isLower_iff c).1 h
  rw [char_toUpper_of_lower c h, char_isUpper_iff, char_toNat_ofNat _ (by omega)]
  omega

theorem toLower_toUpper (c : Char) (h : c.isLower = true) :
    c.toUpper.toLower = c := by
  obtain ⟨h1, h2⟩ := (char_isLower_iff c).1 h
  rw [char_toUpper_of_lower c h]
  have hval : (Char.ofNat (c.toNat - 32)).toNat = c.toNat - 32 :=
    char_toNat_ofNat _ (by omega)
  rw [Char.toLower, if_pos (by rw [hval]; omega)]
  rw [hval, show c.toNat - 32 + 32 = c.toNat by omega, Char.ofNat_toNat]

theorem toLower_of_good (c : Char) (h : c.isLower = true ∨ c.isDigit = true) :
    c.toLower = c := by
  rw [Char.toLower, if_neg]
  rcases h with h | h
  · obtain ⟨h1, h2⟩ := (char_isLower_iff c).1 h
    omega
  · obtain ⟨h1, h2⟩ := (char_isDigit_iff c).1 h
    omega

theorem not_isUpper_of_good (c : Char) (h : c.isLower = true ∨ c.isDigit = true) :
    c.isUpper = false := by
  rw [Bool.eq_false_iff]
  intro hu
  obtain ⟨h1, h2⟩ := (char_isUpper_iff c).1 hu
  rcases h with h | h
  · obtain ⟨h3, h4⟩ := (char_isLower_iff c).1 h
    omega
  · obtain ⟨h3, h4⟩ := (char_isDigit_iff c).1 h
    omega

theorem not_good_of_isUpper (c : Char) (h : c.isUpper = true) :
    ¬(c.isLower = true ∨ c.isDigit = true) := by
  intro hg
  obtain ⟨h1, h2⟩ := (char_isUpper_iff c).1 h
  rcases hg with hg | hg
  · obtain ⟨h3, h4⟩ := (char_isLower_iff c).1 hg
    omega
  · obtain ⟨h3, h4⟩ := (char_isDigit_iff c).1 hg
    omega

theorem not_isLower_of_isDigit (c : Char) (h : c.isDigit = true) :
    c.isLower = false := by
  rw [Bool.eq_false_iff]
  intro hl
  obtain ⟨h1, h2⟩ := (char_isDigit_iff c).1 h
  obtain ⟨h3, h4⟩ := (char_isLower_iff c).1 hl
  omega

theorem ne_underscore_of_good (c : Char)
    (h : c.isLower = true ∨ c.isDigit = true) : ¬c = '_' := by
  rintro rfl
  rcases h with h | h <;> simp at h

theorem camelChars_cons_ne (a : Char) (l : List Char) (h : ¬a = '_') :
    camelChars (a :: l) = a :: camelChars l := by
  cases l with
  | nil => simp [camelChars]
  | cons b r =>
    simp only [camelChars]
    rw [if_neg (fun hc => h hc.1)]

theorem camelChars_und_lower (b : Char) (rest : List Char) (hb : b.isLower = true) :
    camelChars ('_' :: b :: rest) = b.toUpper :: camelChars rest := by
  simp only [camelChars]
  rw [if_pos ⟨trivial, hb⟩]

theorem camelChars_und_notlower (b : Char) (rest : List Char)
    (hb : b.isLower = false) :
    camelChars ('_' :: b :: rest) = '_' :: camelChars (b :: rest) := by
  simp only [camelChars]
  rw [if_neg (by rintro ⟨-, h2⟩; rw [hb] at h2; exact Bool.false_ne_true h2)]

theorem snakeInsert_cons_notup (a b : Char) (l : List Char)
    (h : b.isUpper = false) :
    snakeInsert (a :: b :: l) = a :: snakeInsert (b :: l) := by
  simp only [snakeInsert]
  rw [if_neg (by rintro ⟨-, h2⟩; rw [h] at h2; exact Bool.false_ne_true h2)]

theorem snakeInsert_cons_notgood (a : Char) (l : List Char)
    (h : ¬(a.isLower = true ∨ a.isDigit = true)) :
    snakeInsert (a :: l) = a :: snakeInsert l := by
  cases l with
  | nil => simp [snakeInsert]
  | cons b r =>
    simp only [snakeInsert]
    rw [if_neg (fun hc => h hc.1)]

theorem snakeInsert_cons_ins (a b : Char) (l : List Char)
    (ha : a.isLower = true ∨ a.isDigit = true) (hb : b.isUpper = true) :
    snakeInsert (a :: b :: l) = a :: '_' :: snakeInsert (b :: l) := by
  simp only [snakeInsert]
  rw [if_pos ⟨ha, hb⟩]

/-- The snake_case keys on which the codec round-trips.  Scanning with a flag
that records whether an `_x` group (underscore + lowercase) may start here:
such a group capitalises `x`, so a second one may not follow immediately
(the re-inserted underscore needs a lowercase/digit predecessor), and an
underscore must otherwise be followed by a digit or end the string. -/
def okFrom : Bool → List Char → Bool
  | _, [] => true
  | fl, c :: rest =>
    if c = '_' then
      match rest with
      | [] => true
      | d :: r =>
        if d.isLower = true then fl && okFrom false r
        else d.isDigit && okFrom true r
    else (c.isLower || c.isDigit) && okFrom true rest

/-- Key lemma: on `okFrom`-accepted snake_case keys, decamelizing a camelized
key gives the key back. -/
theorem snake_camel_round (n : Nat) :
    ∀ s : List Char, s.length ≤ n → okFrom false s = true →
      (snakeInsert (camelChars s)).map Char.toLower = s := by
  induction n with
  | zero =>
    intro s hlen _
    rw [List.length_eq_zero.1 (Nat.le_zero.1 hlen)]
    rfl
  | succ n ih =>
    intro s hlen hok
    rcases s with _ | ⟨a, _ | ⟨b, t⟩⟩
    · rfl
    · by_cases hau : a = '_'
      · subst hau; decide
      · simp only [okFrom, if_neg hau, Bool.and_eq_true, Bool.or_eq_true] at hok
        have ha := hok.1
        rw [show camelChars [a] = [a] from by simp [camelChars]]
        rw [show snakeInsert [a] = [a] from by simp [snakeInsert]]
        simp [toLower_of_good a ha]
    · have hlt : t.length ≤ n := by
        simp only [List.length_cons] at hlen; omega
      have hlbt : (b :: t).length ≤ n := by
        simp only [List.length_cons] at hlen ⊢; omega
      by_cases hau : a = '_'
      · subst hau
        simp only [okFrom, if_true] at hok
        by_cases hbl : b.isLower = true
        · rw [if_pos hbl, Bool.false_and] at hok
          exact absurd hok Bool.false_ne_true
        · have hbl' : b.isLower = false := Bool.eq_false_iff.2 hbl
          rw [if_neg hbl, Bool.and_eq_true] at hok
          obtain ⟨hbd, hokt⟩ := hok
          have hbne : ¬b = '_' := ne_underscore_of_good b (Or.inr hbd)
          rw [camelChars_und_notlower b t hbl']
          rw [snakeInsert_cons_notgood '_' _ (by decide)]
          have hih : (snakeInsert (camelChars (b :: t))).map Char.toLower = b :: t := by
            refine ih (b :: t) hlbt ?_
            rw [okFrom.eq_def]
            simp only [if_neg hbne, Bool.and_eq_true, Bool.or_eq_true]
            exact ⟨Or.inr hbd, hokt⟩
          simp only [List.map_cons, hih]
          rw [show Char.toLower '_' = '_' from by decide]
      · simp only [okFrom, if_neg hau, Bool.and_eq_true, Bool.or_eq_true] at hok
        obtain ⟨ha, hok1⟩ := hok
        rw [camelChars_cons_ne a _ hau]
        by_cases hbu : b = '_'
        · subst hbu
          rcases t with _ | ⟨c, r⟩
          · rw [show camelChars ['_'] = ['_'] from by simp [camelChars]]
            rw [snakeInsert_cons_notup a '_' _ (by decide)]
            rw [show snakeInsert ['_'] = ['_'] from by simp [snakeInsert]]
            simp only [List.map_cons, List.map_nil, toLower_of_good a ha]
            rw [show Char.toLower '_' = '_' from by decide]
          · have hrlen : r.length ≤ n := by
              simp only [List.length_cons] at hlen; omega
            simp only [okFrom, eq_self_iff_true, if_true] at hok1
            by_cases hcl : c.isLower = true
            · rw [if_pos hcl, Bool.true_and] at hok1
              rw [camelChars_und_lower c r hcl]
              have hcu := isUpper_toUpper c hcl
              rw [snakeInsert_cons_ins a _ _ ha hcu]
              rw [snakeInsert_cons_notgood _ _ (not_good_of_isUpper _ hcu)]
              have hih : (snakeInsert (camelChars r)).map Char.toLower = r :=
                ih r hrlen hok1
              simp only [List.map_cons, hih]
              rw [toLower_of_good a ha, toLower_toUpper c hcl]
              rw [show Char.toLower '_' = '_' from by decide]
            · have hcl' : c.isLower = false := Bool.eq_false_iff.2 hcl
              rw [if_neg hcl, Bool.and_eq_true] at hok1
              obtain ⟨hcd, hokr⟩ := hok1
              have hcne : ¬c = '_' := ne_underscore_of_good c (Or.inr hcd)
              rw [camelChars_und_notlower c r hcl']
              rw [snakeInsert_cons_notup a '_' _ (by decide)]
              rw [snakeInsert_cons_notgood '_' _ (by decide)]
              have hih : (snakeInsert (camelChars (c :: r))).map Char.toLower
                  = c :: r := by
                refine ih (c :: r) (by simp only [List.length_cons] at hlen ⊢; omega) ?_
                rw [okFrom.eq_def]
                simp only [if_neg hcne, Bool.and_eq_true, Bool.or_eq_true]
                exact ⟨Or.inr hcd, hokr⟩
              simp only [List.map_cons, hih]
              rw [toLower_of_good a ha]
              rw [show Char.toLower '_' = '_' from by decide]
        · rw [okFrom.eq_def] at hok1
          simp only [if_neg hbu, Bool.and_eq_true, Bool.or_eq_true] at hok1
          obtain ⟨hb, hokt⟩ := hok1
          rw [camelChars_cons_ne b _ hbu]
          rw [snakeInsert_cons_notup a b _ (not_isUpper_of_good b hb)]
          have hih : (snakeInsert (camelChars (b :: t))).map Char.toLower = b :: t := by
            refine ih (b :: t) hlbt ?_
            rw [okFrom.eq_def]
            simp only [if_neg hbu, Bool.and_eq_true, Bool.or_eq_true]
            exact ⟨hb, hokt⟩
          rw [camelChars_cons_ne b _ hbu] at hih
          simp only [List.map_cons, hih]
          rw [toLower_of_good a ha]

/-- A JSON-like value: the inputs `camelize`/`decamelize` recurse over
(dicts, lists, and opaque scalars). -/
inductive Jso where
  | null
  | boolean (b : Bool)
  | num (n : Int)
  | str (s : String)
  | arr (items : List Jso)
  | obj (fields : List (String × Jso))

mutual

/-- `camelize` (lines 29-35): recursively convert all dict keys from
snake_case to camelCase; lists are mapped element-wise; other values are
returned unchanged. -/
def camelize : Jso → Jso
  | .obj fields => .obj (camelizeFields fields)
  | .arr items => .arr (camelizeItems items)
  | j => j

def camelizeFields : List (String × Jso) → List (String × Jso)
  | [] => []
  | (k, v) :: rest => (to_camel k, camelize v) :: camelizeFields rest

def camelizeItems : List Jso → List Jso
  | [] => []
  | j :: rest => camelize j :: camelizeItems rest

end

mutual

/-- `decamelize` (lines 20-26): recursively convert all dict keys from
camelCase to snake_case; lists are mapped element-wise; other values are
returned unchanged. -/
def decamelize : Jso → Jso
  | .obj fields => .obj (decamelizeFields fields)
  | .arr items => .arr (decamelizeItems items)
  | j => j

def decamelizeFields : List (String × Jso) → List (String × Jso)
  | [] => []
  | (k, v) :: rest => (to_snake k, decamelize v) :: decamelizeFields rest

def decamelizeItems : List Jso → List Jso
  | [] => []
  | j :: rest => decamelize j :: decamelizeItems rest

end

mutual

/-- Every dict key in the structure is `okFrom`-snake_case. -/
def snakeKeysOk : Jso → Bool
  | .obj fields => snakeKeysOkFields fields
  | .arr items => snakeKeysOkItems items
  | _ => true

def snakeKeysOkFields : List (String × Jso) → Bool
  | [] => true
  | (k, v) :: rest => okFrom false k.data && snakeKeysOk v && snakeKeysOkFields rest

def snakeKeysOkItems : List Jso → Bool
  | [] => true
  | j :: rest => snakeKeysOk j && snakeKeysOkItems rest

end

theorem to_snake_to_camel (k : String) (h : okFrom false k.data = true) :
    to_snake (to_camel k) = k := by
  obtain ⟨l⟩ := k
  show String.mk ((snakeInsert (camelChars l)).map Char.toLower) = String.mk l
  rw [snake_camel_round l.length l (le_refl _) h]

mutual

theorem decamelize_camelize : ∀ j : Jso, snakeKeysOk j = true →
    decamelize (camelize j) = j
  | .null, _ => rfl
  | .boolean _, _ => rfl
  | .num _, _ => rfl
  | .str _, _ => rfl
  | .arr items, h => by
    rw [show camelize (.arr items) = .arr (camelizeItems items) from rfl]
    rw [show decamelize (.arr (camelizeItems items))
        = .arr (decamelizeItems (camelizeItems items)) from rfl]
    rw [decamelize_camelize_items items (by simpa [snakeKeysOk] using h)]
  | .obj fields, h => by
    rw [show camelize (.obj fields) = .obj (camelizeFields fields) from rfl]
    rw [show decamelize (.obj (camelizeFields fields))
        = .obj (decamelizeFields (camelizeFields fields)) from rfl]
    rw [decamelize_camelize_fields fields (by simpa [snakeKeysOk] using h)]

theorem decamelize_camelize_fields : ∀ l : List (String × Jso),
    snakeKeysOkFields l = true → decamelizeFields (camelizeFields l) = l
  | [], _ => rfl
  | (k, v) :: rest, h => by
    have h' : okFrom false k.data = true ∧ snakeKeysOk v = true
        ∧ snakeKeysOkFields rest = true := by
      simpa [snakeKeysOkFields, Bool.and_eq_true, and_assoc] using h
    rw [show camelizeFields ((k, v) :: rest)
        = (to_camel k, camelize v) :: camelizeFields rest from rfl]
    rw [show decamelizeFields ((to_camel k, camelize v) :: camelizeFields rest)
        = (to_snake (to_camel k), decamelize (camelize v))
            :: decamelizeFields (camelizeFields rest) from rfl]
    rw [to_snake_to_camel k h'.1, decamelize_camelize v h'.2.1,
      decamelize_camelize_fields rest h'.2.2]

theorem decamelize_camelize_items : ∀ l : List Jso,
    snakeKeysOkItems l = true → decamelizeItems (camelizeItems l) = l
  | [], _ => rfl
  | j :: rest, h => by
    have h' : snakeKeysOk j = true ∧ snakeKeysOkItems rest = true := by
      simpa [snakeKeysOkItems, Bool.and_eq_true] using h
    rw [show camelizeItems (j :: rest) = camelize j :: camelizeItems rest from rfl]
    rw [show decamelizeItems (camelize j :: camelizeItems rest)
        = decamelize (camelize j) :: decamelizeItems (camelizeItems rest) from rfl]
    rw [decamelize_camelize j h'.1, decamelize_camelize_items rest h'.2]

end

/-- C9 counterexample: the snake_case key "a_b_c" (two consecutive
single-letter segments) camelizes to "aBC", which decamelizes to "a_bc" —
the inserted-underscore rule requires a lowercase/digit predecessor, and the
`B` consumed it — so `decamelize ∘ camelize` is not the identity on this
snake_case-keyed object. -/
theorem C9_counterexample :
    decamelize (camelize (.obj [("a_b_c", .null)])) ≠ Jso.obj [("a_b_c", .null)] := by
  have h1 : decamelize (camelize (.obj [("a_b_c", .null)]))
      = .obj [("a_bc", .null)] := by
    rw [show camelize (.obj [("a_b_c", .null)])
        = .obj (camelizeFields [("a_b_c", .null)]) from rfl]
    rw [show camelizeFields [("a_b_c", Jso.null)]
        = [(to_camel "a_b_c", Jso.null)] from rfl]
    rw [show to_camel "a_b_c" = "aBC" from rfl]
    rw [show decamelize (.obj [("aBC", Jso.null)])
        = .obj (decamelizeFields [("aBC", Jso.null)]) from rfl]
    rw [show decamelizeFields [("aBC", Jso.null)]
        = [(to_snake "aBC", Jso.null)] from rfl]
    rw [show to_snake "aBC" = "a_bc" from rfl]
  rw [h1]
  intro hcontra
  have : ("a_bc" : String) = "a_b_c" := by
    injection hcontra with hf
    injection hf with hp _
    exact congrArg Prod.fst hp
  simp at this

/-- C9 amended: `decamelize ∘ camelize` is the identity on every nested
JSON-like structure whose dict keys are snake_case names with no two
consecutive single-lowercase-letter segments (formally: keys accepted by
`okFrom false` — lowercase/digit/underscore characters, no leading
underscore or double underscore, and no `_x_y` with `x`, `y` lowercase);
both transforms recurse into nested dicts and lists and leave scalar values
unchanged. -/
theorem C9_codec_roundtrip (j : Jso) (h : snakeKeysOk j = true) :
    decamelize (camelize j) = j :=
  decamelize_camelize j h

theorem C9_codec_roundtrip_witness :
    decamelize (camelize (.obj
      [("start_at", .num 5), ("all_day", .boolean true),
       ("alerts", .arr [.obj [("location_lat", .null)]])]))
      = Jso.obj
      [("start_at", .num 5), ("all_day", .boolean true),
       ("alerts", .arr [.obj [("location_lat", .null)]])] :=
  C9_codec_roundtrip _ (by decide)

/-! ### C10: `_kwargs_to_mutation` (`calendar.py` lines 332-408) -/

/-- A Python `datetime.datetime`: local calendar date (days since epoch),
local wall-clock time of day (milliseconds), and optional tzinfo (zone
name).  `.date()` returns the local calendar date. -/
structure PyDateTime where
  day : Int
  msOfDay : Int
  tz : Option String
deriving DecidableEq

/-- A value of the Home Assistant service-call `data` dict: a datetime, a
plain date, or a string yet to be parsed. -/
inductive PyVal where
  | dt (d : PyDateTime)
  | date (day : Int)
  | str (s : String)
deriving DecidableEq

/-- The keys `_kwargs_to_mutation` reads from the service-call data (the
Lean field `end_` stands for the Python key "end"). -/
structure MutInput where
  start_date_time : Option PyVal := none
  end_date_time : Option PyVal := none
  start_date : Option PyVal := none
  end_date : Option PyVal := none
  dtstart : Option PyVal := none
  dtend : Option PyVal := none
  start : Option PyVal := none
  end_ : Option PyVal := none
  summary : Option String := none
  description : Option String := none
  location : Option String := none
deriving DecidableEq

/-- Python truthiness of `data.get(key)`: absent and empty-string values are
falsy; date and datetime objects are always truthy. -/
def truthy : Option PyVal → Bool
  | none => false
  | some (.str s) => decide (s ≠ "")
  | some _ => true

/-- Python `a or b`: the first operand if truthy, else the second. -/
def pyOr (a b : Option PyVal) : Option PyVal := if truthy a then a else b

/-- `isinstance(x, datetime)`. -/
def isDatetime : Option PyVal → Bool
  | some (.dt _) => true
  | _ => false

/-- `isinstance(x, date) and not isinstance(x, datetime)` (in Python,
`datetime` is a subclass of `date`). -/
def isDateNotDatetime : Option PyVal → Bool
  | some (.date _) => true
  | _ => false

/-- The branch-selection head of `_kwargs_to_mutation` (lines 342-356):
resolve `(dtstart, dtend, all_day)` from whichever key variants are
populated. -/
def selectKind (data : MutInput) : Option PyVal × Option PyVal × Bool :=
  if truthy data.start_date_time
      || (truthy data.dtstart && isDatetime data.dtstart) then
    (pyOr data.start_date_time (pyOr data.dtstart data.start),
     pyOr data.end_date_time (pyOr data.dtend data.end_),
     false)
  else if truthy data.start_date
      || (truthy data.dtstart && isDateNotDatetime data.dtstart) then
    (pyOr data.start_date (pyOr data.dtstart data.start),
     pyOr data.end_date (pyOr data.dtend data.end_),
     true)
  else
    (pyOr data.dtstart data.start, pyOr data.dtend data.end_,
     isDateNotDatetime (pyOr data.dtstart data.start))

/-- String inputs are run through `dateutil.parser.parse` (lines 359-364),
modelled by the `dtparse` oracle, which yields a datetime. -/
def parseStrings (dtparse : String → PyDateTime) : Option PyVal → Option PyVal
  | some (.str s) => some (.dt (dtparse s))
  | v => v

/-- The all-day branch's date coercion (lines 368-371): a datetime is reduced
to its local calendar date; a missing or non-date value has no date (and the
subsequent date arithmetic raises `TypeError`). -/
def toDateDay : Option PyVal → Option Int
  | some (.dt d) => some d.day
  | some (.date day) => some day
  | _ => none

/-- Python errors `_kwargs_to_mutation` can raise. -/
inductive PyErr where
  | typeError
  | valueError (msg : String)
deriving DecidableEq

/-- `datetime.replace(tzinfo=UTC)` applied only when the value is naive
(lines 391-394). -/
def ensureTz (d : PyDateTime) : PyDateTime := { d with tz := some (d.tz.getD "UTC") }

/-- `int(dt.timestamp() * 1000)` of an aware datetime, exact in the
millisecond model: local wall-clock instant minus the zone's UTC offset. -/
def datetimeTimestampMs (env : TzEnv) (d : PyDateTime) : Int :=
  d.day * msPerDay + d.msOfDay - env.offset (d.tz.getD "UTC")

/-- The `EventMutation` fields `_kwargs_to_mutation` populates
(`timetree_api/models.py` lines 150-170; the remaining fields keep their
dataclass defaults). -/
structure EventMutation where
  title : String
  all_day : Bool
  start_at : Int
  end_at : Int
  start_timezone : String := "UTC"
  end_timezone : String := "UTC"
  note : Option String := none
  location : Option String := none
deriving DecidableEq

/-- `_kwargs_to_mutation` (lines 332-408).  All-day branch: convert the
exclusive Home Assistant end date to TimeTree's inclusive convention
(minus one day, floored at the start date) and take epoch milliseconds of
UTC midnight of both dates (`datetime.combine(date, time(), tzinfo=UTC)`),
with both timezone fields the literal "UTC".  Timed branch: attach UTC to
naive datetimes, use the start's zone name for both timezone fields, and
take the instants' epoch milliseconds; non-datetime values raise
`ValueError`. -/
def kwargs_to_mutation (env : TzEnv) (dtparse : String → PyDateTime)
    (data : MutInput) : Except PyErr EventMutation :=
  let sel := selectKind data
  let ds := parseStrings dtparse sel.1
  let de := parseStrings dtparse sel.2.1
  if sel.2.2 then
    match toDateDay ds, toDateDay de with
    | some sd, some ed =>
      let tt_end0 := ed - 1
      let tt_end := if tt_end0 < sd then sd else tt_end0
      .ok { title := data.summary.getD "", all_day := true,
            start_at := sd * msPerDay, end_at := tt_end * msPerDay,
            start_timezone := "UTC", end_timezone := "UTC",
            note := data.description, location := data.location }
    | _, _ => .error .typeError
  else
    match ds, de with
    | some (.dt d1), some (.dt d2) =>
      let d1' := ensureTz d1
      let d2' := ensureTz d2
      let tz_name := d1'.tz.getD "UTC"
      .ok { title := data.summary.getD "", all_day := false,
            start_at := datetimeTimestampMs env d1',
            end_at := datetimeTimestampMs env d2',
            start_timezone := tz_name, end_timezone := tz_name,
            note := data.description, location := data.location }
    | _, _ => .error (.valueError "Expected datetime for timed events")

/-- C10: whenever `_kwargs_to_mutation` takes the all-day branch and both
ends resolve to calendar dates, the produced mutation carries the literal
"UTC" in both timezone fields and the epoch milliseconds of UTC midnight of
the start date and of the internal inclusive end date (the supplied
exclusive end minus one day, floored at the start date) — independent of the
timezone environment and of any tzinfo on the input values. -/
theorem C10_allday_mutation (env : TzEnv) (dtparse : String → PyDateTime)
    (data : MutInput) (ds de : Option PyVal) (sd ed : Int)
    (hsel : selectKind data = (ds, de, true))
    (hsd : toDateDay (parseStrings dtparse ds) = some sd)
    (hed : toDateDay (parseStrings dtparse de) = some ed) :
    kwargs_to_mutation env dtparse data
      = .ok { title := data.summary.getD "", all_day := true,
              start_at := sd * msPerDay,
              end_at := (if ed - 1 < sd then sd else ed - 1) * msPerDay,
              start_timezone := "UTC", end_timezone := "UTC",
              note := data.description, location := data.location } := by
  unfold kwargs_to_mutation
  rw [hsel]
  simp [hsd, hed]

/-- Concrete all-day service-call input for the C10 witness. -/
def allDayInput : MutInput :=
  { start_date := some (.date 100), end_date := some (.date 102),
    summary := some "party" }

/-- Trivial parse oracle for the C10 witness. -/
def dtparse0 : String → PyDateTime := fun _ => ⟨0, 0, none⟩

theorem C10_allday_mutation_witness :
    kwargs_to_mutation utcEnv dtparse0 allDayInput
      = .ok { title := "party", all_day := true,
              start_at := 100 * msPerDay, end_at := 101 * msPerDay,
              start_timezone := "UTC", end_timezone := "UTC",
              note := none, location := none } := by
  have h := C10_allday_mutation utcEnv dtparse0 allDayInput
    (some (.date 100)) (some (.date 102)) 100 102 rfl rfl rfl
  simpa using h

end TimeTree
